import Mathlib

set_option maxHeartbeats 1000000

/-!
Verification of the velox cuDF heterogeneous-execution layer.

Shallow embedding of:
* `velox/experimental/cudf/expression/ExpressionEvaluator.cpp`
  (function registry, evaluator-strategy registry, logical feasibility
  check `canBeEvaluatedByCudf`, strategy selection `createCudfExpression`,
  `FunctionExpression::create/eval`, `SubstrFunction`),
* the pipeline compiler `CompileState::compile` and registration code,
* the checked integer arithmetic helpers (`checkedModulus`).
-/

namespace VeloxCudf

/-! ## Logical (typed) expression trees

`core::ITypedExpr`: a node has a kind, a name (meaningful for calls) and a
list of input subexpressions. -/

inductive ExprKind where
  | input
  | constant
  | call
  | fieldAccess
  | dereference
  | castKind
  | concat
  | lambdaKind
  deriving DecidableEq

inductive TypedExpr where
  | mk (kind : ExprKind) (name : String) (inputs : List TypedExpr)

def TypedExpr.kind : TypedExpr → ExprKind
  | .mk k _ _ => k

def TypedExpr.name : TypedExpr → String
  | .mk _ n _ => n

def TypedExpr.inputs : TypedExpr → List TypedExpr
  | .mk _ _ is => is

/-! ## Physical (compiled) expression trees

`velox::exec::Expr`: produced by velox expression compilation.  We record
whether the node is a `FieldReference` or a `ConstantExpr` (the dynamic
casts used by the code), the node name, the constant payload when the node
is an integer literal, and the inputs. -/

inductive PExprKind where
  | fieldRef
  | constant
  | call
  deriving DecidableEq

inductive PExpr where
  | mk (kind : PExprKind) (name : String) (constVal : Option Int) (inputs : List PExpr)

def PExpr.kind : PExpr → PExprKind
  | .mk k _ _ _ => k

def PExpr.name : PExpr → String
  | .mk _ n _ _ => n

def PExpr.constVal : PExpr → Option Int
  | .mk _ _ v _ => v

def PExpr.inputs : PExpr → List PExpr
  | .mk _ _ _ is => is

/-! ## Capability Registry (function registry)

`getCudfFunctionRegistry()` is an `unordered_map<string, CudfFunctionFactory>`.
We model the map as an association list; a built `CudfFunction` is modelled
as an opaque handle (its name suffices for the claims proved here). -/

abbrev CudfFunctionModel := String

abbrev CudfFunctionFactory := String → PExpr → CudfFunctionModel

abbrev CudfFunctionRegistry := List (String × CudfFunctionFactory)

def registryContains {α : Type} (reg : List (String × α)) (name : String) : Bool :=
  reg.any (fun p => p.1 == name)

def registryLookup {α : Type} (reg : List (String × α)) (name : String) : Option α :=
  (reg.find? (fun p => p.1 == name)).map (fun p => p.2)

/-- `registry[name] = v` on an `unordered_map`: replace the binding when the
key is present, insert it otherwise. -/
def registryStore {α : Type} (reg : List (String × α)) (name : String) (v : α) :
    List (String × α) :=
  if registryContains reg name then
    reg.map (fun p => if p.1 == name then (p.1, v) else p)
  else
    reg ++ [(name, v)]

/-- `registerCudfFunction` (ExpressionEvaluator.cpp): fails without mutation
when the name exists and `overwrite` is false. Returns the new registry
alongside the boolean result (the C++ mutates the global registry). -/
def registerCudfFunction (reg : CudfFunctionRegistry) (name : String)
    (factory : CudfFunctionFactory) (overwrite : Bool) :
    Bool × CudfFunctionRegistry :=
  if !overwrite && registryContains reg name then
    (false, reg)
  else
    (true, registryStore reg name factory)

/-- `createCudfFunction`: invoke the stored factory, `nullptr` (none) when the
name is not registered. -/
def createCudfFunction (reg : CudfFunctionRegistry) (name : String) (expr : PExpr) :
    Option CudfFunctionModel :=
  match registryLookup reg name with
  | some factory => some (factory name expr)
  | none => none

/-! ## Evaluator Strategy Registry -/

/-- A compiled cuDF expression.  A pluggable strategy produces an opaque
`strategyNode`; the default function/field strategy produces a
`functionNode` mirroring `FunctionExpression` (original expr, input row
schema, optional built function, compiled children). -/
inductive CompiledExpr where
  | strategyNode (tag : String)
  | functionNode (expr : PExpr) (schema : List String)
      (fn : Option CudfFunctionModel) (children : List (Option CompiledExpr))

/-- `CudfExpressionEvaluatorEntry`: priority, the two predicates (each an
`std::function` which may be empty, hence `Option`), and the factory (a
`shared_ptr` result, which may be null, hence `Option`). -/
structure CudfExpressionEvaluatorEntry where
  priority : Int
  canEvaluate : Option (TypedExpr → Bool)
  canEvaluateCompiled : Option (PExpr → Bool)
  create : PExpr → List String → Option CompiledExpr

abbrev EvalRegistry := List (String × CudfExpressionEvaluatorEntry)

/-- `entry.canEvaluate && entry.canEvaluate(expr)`: an empty `std::function`
never claims. -/
def applyTypedPred (p : Option (TypedExpr → Bool)) (e : TypedExpr) : Bool :=
  match p with
  | some f => f e
  | none => false

def applyCompiledPred (p : Option (PExpr → Bool)) (e : PExpr) : Bool :=
  match p with
  | some f => f e
  | none => false

/-- `registerCudfExpressionEvaluator`: same first-wins/overwrite logic as the
function registry. -/
def registerCudfExpressionEvaluator (reg : EvalRegistry) (name : String)
    (entry : CudfExpressionEvaluatorEntry) (overwrite : Bool) :
    Bool × EvalRegistry :=
  if !overwrite && registryContains reg name then
    (false, reg)
  else
    (true, registryStore reg name entry)

/-! ## Logical feasibility check

`FunctionExpression::canEvaluate(const core::TypedExprPtr&)` and the three
`canBeEvaluatedByCudf` overloads. -/

/-- Logical-level predicate of the default function/field strategy. -/
def FunctionExpression.canEvaluateTyped (funcReg : CudfFunctionRegistry)
    (e : TypedExpr) : Bool :=
  if e.kind == .fieldAccess || e.kind == .dereference || e.kind == .input
      || e.kind == .constant then
    true
  else if e.kind != .call then
    false
  else
    registryContains funcReg e.name

/-- Does some registered strategy claim this logical root
(the loop body of `canBeEvaluatedByCudf(const core::TypedExprPtr&)`)? -/
def rootEvaluatorClaims (reg : EvalRegistry) (e : TypedExpr) : Bool :=
  reg.any (fun p => applyTypedPred p.2.canEvaluate e)

mutual

/-- `canBeEvaluatedByCudf(const core::TypedExprPtr&)`: the root must be
claimed by some strategy, then recurse into all inputs. -/
def canBeEvaluatedByCudf (reg : EvalRegistry) : TypedExpr → Bool
  | .mk k n is =>
    rootEvaluatorClaims reg (.mk k n is) && canBeEvaluatedByCudfList reg is

/-- `canBeEvaluatedByCudf(const std::vector<core::TypedExprPtr>&)`. -/
def canBeEvaluatedByCudfList (reg : EvalRegistry) : List TypedExpr → Bool
  | [] => true
  | e :: es => canBeEvaluatedByCudf reg e && canBeEvaluatedByCudfList reg es

end

mutual

/-- All nodes of a logical expression tree: the root and, recursively, every
node of every input subtree. -/
def nodesOf : TypedExpr → List TypedExpr
  | .mk k n is => .mk k n is :: nodesOfList is

def nodesOfList : List TypedExpr → List TypedExpr
  | [] => []
  | e :: es => nodesOf e ++ nodesOfList es

end

mutual

theorem canBeEvaluatedByCudf_eq_all (reg : EvalRegistry) (e : TypedExpr) :
    canBeEvaluatedByCudf reg e = (nodesOf e).all (rootEvaluatorClaims reg) := by
  match e with
  | .mk k n is =>
    rw [canBeEvaluatedByCudf, nodesOf, List.all_cons,
      canBeEvaluatedByCudfList_eq_all reg is]

theorem canBeEvaluatedByCudfList_eq_all (reg : EvalRegistry) (es : List TypedExpr) :
    canBeEvaluatedByCudfList reg es = (nodesOfList es).all (rootEvaluatorClaims reg) := by
  match es with
  | [] => rfl
  | e :: es =>
    rw [canBeEvaluatedByCudfList, nodesOfList, List.all_append,
      canBeEvaluatedByCudf_eq_all reg e, canBeEvaluatedByCudfList_eq_all reg es]

end

/-- Claim C1: the logical feasibility check `canBeEvaluatedByCudf` returns
true exactly when every node of the expression tree (root and all nested
descendants) is claimed by some registered evaluator strategy; it returns
false whenever any single node is unclaimed. -/
theorem claim_C1_conservative_feasibility (reg : EvalRegistry) (e : TypedExpr) :
    canBeEvaluatedByCudf reg e = true ↔
      ∀ n ∈ nodesOf e, rootEvaluatorClaims reg n = true := by
  rw [canBeEvaluatedByCudf_eq_all, List.all_eq_true]

/-! ## Strategy selection and the expression compiler

`createCudfExpression(expr, inputRowSchema, except)` scans the strategy
registry for the best (highest-priority) claimant, excluding the optionally
named strategy, and falls back to `FunctionExpression::create`. -/

/-- `except && name == *except`. -/
def exceptMatches (except : Option String) (name : String) : Bool :=
  match except with
  | some e => name == e
  | none => false

/-- One iteration of the selection loop of `createCudfExpression`: skip the
excluded name; a claimant replaces `best` when `best` is null or the
claimant's priority is strictly higher. -/
def selectStep (expr : PExpr) (except : Option String)
    (best : Option CudfExpressionEvaluatorEntry)
    (p : String × CudfExpressionEvaluatorEntry) :
    Option CudfExpressionEvaluatorEntry :=
  if exceptMatches except p.1 then
    best
  else if applyCompiledPred p.2.canEvaluateCompiled expr then
    match best with
    | none => some p.2
    | some b => if p.2.priority > b.priority then some p.2 else some b
  else best

/-- The selection loop of `createCudfExpression`: keep the entry with the
strictly highest priority among non-excluded claimants (first claimant seen
wins ties, matching `entry.priority > best->priority`). -/
def selectBest (reg : EvalRegistry) (expr : PExpr) (except : Option String) :
    Option CudfExpressionEvaluatorEntry :=
  reg.foldl (selectStep expr except) none

mutual

/-- `createCudfExpression`: pick the best claiming strategy; if none claims,
use the default function/field strategy (the `none` branch is the body of
`FunctionExpression::create`, inlined for structural recursion; the
standalone `FunctionExpression.create` below is proved equal to it). -/
def createCudfExpression (reg : EvalRegistry) (funcReg : CudfFunctionRegistry)
    (expr : PExpr) (schema : List String) (except : Option String) :
    Option CompiledExpr :=
  match selectBest reg expr except with
  | some e => e.create expr schema
  | none =>
    match expr with
    | .mk k n v is =>
      let fn := createCudfFunction funcReg n (.mk k n v is)
      let children :=
        match fn with
        | some _ => createCudfChildren reg funcReg is schema
        | none => []
      some (.functionNode (.mk k n v is) schema fn children)

/-- The child-compilation loop of `FunctionExpression::create`: every input
whose name is not "literal" is compiled via `createCudfExpression`. -/
def createCudfChildren (reg : EvalRegistry) (funcReg : CudfFunctionRegistry)
    (inputs : List PExpr) (schema : List String) : List (Option CompiledExpr) :=
  match inputs with
  | [] => []
  | i :: rest =>
    if i.name == "literal" then
      createCudfChildren reg funcReg rest schema
    else
      createCudfExpression reg funcReg i schema none ::
        createCudfChildren reg funcReg rest schema

end

/-- `FunctionExpression::create`: build the node, look the call name up in
the function registry, and (when found) compile every non-literal input via
`createCudfExpression`.  Always returns a node (`make_shared`), even when
the name is not registered. -/
def FunctionExpression.create (reg : EvalRegistry) (funcReg : CudfFunctionRegistry)
    (expr : PExpr) (schema : List String) : Option CompiledExpr :=
  let fn := createCudfFunction funcReg expr.name expr
  let children :=
    match fn with
    | some _ => createCudfChildren reg funcReg expr.inputs schema
    | none => []
  some (.functionNode expr schema fn children)

theorem createCudfExpression_of_selectBest_none
    (reg : EvalRegistry) (funcReg : CudfFunctionRegistry) (expr : PExpr)
    (schema : List String) (except : Option String)
    (h : selectBest reg expr except = none) :
    createCudfExpression reg funcReg expr schema except =
      FunctionExpression.create reg funcReg expr schema := by
  cases expr with
  | mk k n v is =>
    rw [createCudfExpression, h, FunctionExpression.create]
    rfl

theorem createCudfExpression_of_selectBest_some
    (reg : EvalRegistry) (funcReg : CudfFunctionRegistry) (expr : PExpr)
    (schema : List String) (except : Option String)
    (e : CudfExpressionEvaluatorEntry)
    (h : selectBest reg expr except = some e) :
    createCudfExpression reg funcReg expr schema except = e.create expr schema := by
  cases expr with
  | mk k n v is =>
    rw [createCudfExpression, h]

/-! Fold lemmas for the selection loop. -/

theorem selectFold_none (expr : PExpr) (except : Option String) (reg : EvalRegistry)
    (h : ∀ p ∈ reg, exceptMatches except p.1 = true ∨
        applyCompiledPred p.2.canEvaluateCompiled expr = false) :
    reg.foldl (selectStep expr except) none = none := by
  induction reg with
  | nil => rfl
  | cons p rest ih =>
    have hp := h p (List.mem_cons_self p rest)
    have hstep : selectStep expr except none p = none := by
      unfold selectStep
      rcases hp with h1 | h1
      · rw [h1]
        simp
      · rw [h1]
        simp only [if_neg]
        split <;> rfl
    rw [List.foldl_cons, hstep]
    exact ih (fun q hq => h q (List.mem_cons_of_mem p hq))

theorem selectFold_mem (expr : PExpr) (except : Option String) (reg : EvalRegistry)
    (acc : Option CudfExpressionEvaluatorEntry) (r : CudfExpressionEvaluatorEntry)
    (h : reg.foldl (selectStep expr except) acc = some r) :
    acc = some r ∨ ∃ nm, (nm, r) ∈ reg ∧ exceptMatches except nm = false ∧
      applyCompiledPred r.canEvaluateCompiled expr = true := by
  induction reg generalizing acc with
  | nil => exact Or.inl h
  | cons p rest ih =>
    rw [List.foldl_cons] at h
    rcases ih (selectStep expr except acc p) h with h1 | ⟨nm, hm, hex, hcl⟩
    · unfold selectStep at h1
      by_cases hex : exceptMatches except p.1 = true
      · rw [if_pos hex] at h1
        exact Or.inl h1
      · rw [if_neg hex] at h1
        by_cases hcl : applyCompiledPred p.2.canEvaluateCompiled expr = true
        · rw [if_pos hcl] at h1
          match acc, h1 with
          | none, h1 =>
            refine Or.inr ⟨p.1, ?_, Bool.not_eq_true _ ▸ hex, ?_⟩
            · have : r = p.2 := by
                cases h1
                rfl
              rw [this]
              exact List.mem_cons_self p rest
            · have : r = p.2 := by
                cases h1
                rfl
              rw [this]
              exact hcl
          | some b, h1 =>
            have h2 : (if p.2.priority > b.priority then some p.2 else some b) =
                some r := h1
            by_cases hpr : p.2.priority > b.priority
            · rw [if_pos hpr] at h2
              have : r = p.2 := by
                cases h2
                rfl
              subst this
              exact Or.inr ⟨p.1, List.mem_cons_self p rest,
                Bool.not_eq_true _ ▸ hex, hcl⟩
            · rw [if_neg hpr] at h2
              exact Or.inl h2
        · rw [if_neg hcl] at h1
          exact Or.inl h1
    · exact Or.inr ⟨nm, List.mem_cons_of_mem p hm, hex, hcl⟩

theorem selectFold_acc_le (expr : PExpr) (except : Option String) (reg : EvalRegistry)
    (b : CudfExpressionEvaluatorEntry) :
    ∃ r, reg.foldl (selectStep expr except) (some b) = some r ∧
      b.priority ≤ r.priority := by
  induction reg generalizing b with
  | nil => exact ⟨b, rfl, le_refl _⟩
  | cons p rest ih =>
    rw [List.foldl_cons]
    have : ∃ b2, selectStep expr except (some b) p = some b2 ∧
        b.priority ≤ b2.priority := by
      unfold selectStep
      by_cases hex : exceptMatches except p.1 = true
      · rw [if_pos hex]
        exact ⟨b, rfl, le_refl _⟩
      · rw [if_neg hex]
        by_cases hcl : applyCompiledPred p.2.canEvaluateCompiled expr = true
        · rw [if_pos hcl]
          show ∃ b2, (if p.2.priority > b.priority then some p.2 else some b) =
            some b2 ∧ b.priority ≤ b2.priority
          by_cases hpr : p.2.priority > b.priority
          · rw [if_pos hpr]
            exact ⟨p.2, rfl, le_of_lt hpr⟩
          · rw [if_neg hpr]
            exact ⟨b, rfl, le_refl _⟩
        · rw [if_neg hcl]
          exact ⟨b, rfl, le_refl _⟩
    obtain ⟨b2, hstep, hle⟩ := this
    rw [hstep]
    obtain ⟨r, hr, hle2⟩ := ih b2
    exact ⟨r, hr, le_trans hle hle2⟩

theorem selectFold_dominates (expr : PExpr) (except : Option String)
    (reg : EvalRegistry) (acc : Option CudfExpressionEvaluatorEntry)
    (nm : String) (ent : CudfExpressionEvaluatorEntry)
    (hmem : (nm, ent) ∈ reg) (hex : exceptMatches except nm = false)
    (hcl : applyCompiledPred ent.canEvaluateCompiled expr = true) :
    ∃ r, reg.foldl (selectStep expr except) acc = some r ∧
      ent.priority ≤ r.priority := by
  induction reg generalizing acc with
  | nil => cases hmem
  | cons p rest ih =>
    rw [List.foldl_cons]
    rcases List.mem_cons.mp hmem with heq | hmem2
    · subst heq
      have : ∃ b2, selectStep expr except acc (nm, ent) = some b2 ∧
          ent.priority ≤ b2.priority := by
        unfold selectStep
        rw [if_neg (by rw [hex]; exact Bool.false_ne_true), if_pos hcl]
        match acc with
        | none => exact ⟨ent, rfl, le_refl _⟩
        | some b =>
          show ∃ b2, (if ent.priority > b.priority then some ent else some b) =
            some b2 ∧ ent.priority ≤ b2.priority
          by_cases hpr : ent.priority > b.priority
          · rw [if_pos hpr]
            exact ⟨ent, rfl, le_refl _⟩
          · rw [if_neg hpr]
            exact ⟨b, rfl, le_of_not_lt hpr⟩
      obtain ⟨b2, hstep, hle⟩ := this
      rw [hstep]
      obtain ⟨r, hr, hle2⟩ := selectFold_acc_le expr except rest b2
      exact ⟨r, hr, le_trans hle hle2⟩
    · exact ih (selectStep expr except acc p) hmem2

/-- Claim C3: when two or more registered strategies claim a compiled
expression, `createCudfExpression` selects the one with the strictly higher
priority and uses its factory, regardless of registration order (the
registry list is universally quantified, so every iteration order is
covered); a strategy named by `except` is excluded from consideration. -/
theorem claim_C3_priority_selection (reg : EvalRegistry)
    (funcReg : CudfFunctionRegistry) (expr : PExpr) (schema : List String)
    (except : Option String) (e : CudfExpressionEvaluatorEntry)
    (hmem : ∃ nm, (nm, e) ∈ reg ∧ exceptMatches except nm = false ∧
      applyCompiledPred e.canEvaluateCompiled expr = true)
    (hdom : ∀ nm2 e2, (nm2, e2) ∈ reg → exceptMatches except nm2 = false →
      applyCompiledPred e2.canEvaluateCompiled expr = true →
      e2 = e ∨ e2.priority < e.priority) :
    createCudfExpression reg funcReg expr schema except = e.create expr schema := by
  obtain ⟨nm, hm, hex, hcl⟩ := hmem
  obtain ⟨r, hsel, hle⟩ := selectFold_dominates expr except reg none nm e hm hex hcl
  rcases selectFold_mem expr except reg none r hsel with h | ⟨nm2, hm2, hex2, hcl2⟩
  · cases h
  · rcases hdom nm2 r hm2 hex2 hcl2 with h | h
    · subst h
      exact createCudfExpression_of_selectBest_some reg funcReg expr schema except r hsel
    · omega

/-- Sample physical expression and strategy entries used by the witnesses. -/
def pexprSample : PExpr := .mk .call "f" none []

def entryLowPriority : CudfExpressionEvaluatorEntry :=
  { priority := 10
    canEvaluate := none
    canEvaluateCompiled := some (fun _ => true)
    create := fun _ _ => some (.strategyNode "low") }

def entryHighPriority : CudfExpressionEvaluatorEntry :=
  { priority := 20
    canEvaluate := none
    canEvaluateCompiled := some (fun _ => true)
    create := fun _ _ => some (.strategyNode "high") }

/-- Witness for C3: with the lower-priority strategy registered first, both
claiming, the higher-priority strategy's factory is used. -/
theorem claim_C3_witness :
    createCudfExpression [("low", entryLowPriority), ("high", entryHighPriority)]
        [] pexprSample [] none = entryHighPriority.create pexprSample [] := by
  apply claim_C3_priority_selection
  · exact ⟨"high", by simp, rfl, rfl⟩
  · intro nm2 e2 hm hex hcl
    rcases List.mem_cons.mp hm with h | h
    · right
      have : e2 = entryLowPriority := congrArg Prod.snd h
      rw [this]
      decide
    · left
      rcases List.mem_cons.mp h with h2 | h2
      · exact congrArg Prod.snd h2
      · cases h2

/-- Claim C4: when no registered strategy (outside the excluded name) claims
the compiled expression, `createCudfExpression` falls back to
`FunctionExpression::create`, which always returns a compiled expression
object (never null). -/
theorem claim_C4_default_fallback (reg : EvalRegistry)
    (funcReg : CudfFunctionRegistry) (expr : PExpr) (schema : List String)
    (except : Option String)
    (h : ∀ p ∈ reg, exceptMatches except p.1 = true ∨
      applyCompiledPred p.2.canEvaluateCompiled expr = false) :
    createCudfExpression reg funcReg expr schema except =
      FunctionExpression.create reg funcReg expr schema ∧
    (createCudfExpression reg funcReg expr schema except).isSome = true := by
  have hsel : selectBest reg expr except = none := selectFold_none expr except reg h
  have heq := createCudfExpression_of_selectBest_none reg funcReg expr schema except hsel
  refine ⟨heq, ?_⟩
  rw [heq]
  rfl

/-- Witness for C4: with an empty strategy registry nothing claims, so the
default function/field strategy is used and a node is returned. -/
theorem claim_C4_witness :
    createCudfExpression [] [] pexprSample [] none =
      FunctionExpression.create [] [] pexprSample [] ∧
    (createCudfExpression [] [] pexprSample [] none).isSome = true :=
  claim_C4_default_fallback [] [] pexprSample [] none (by simp)

/-! ## Evaluation of compiled expressions

`FunctionExpression::eval`: a field reference passes the input column
through; otherwise, when a function was built, evaluate the compiled
children post-order and apply it; otherwise raise the unsupported-expression
error.  The semantics of built accelerator callables and of plugin-compiled
nodes are external, so they are oracle parameters; the optional finalizing
cast is a device-type conversion and is not modelled (no claim depends on
it). -/

mutual

def evalCompiled {α : Type} (applyFn : CudfFunctionModel → List α → α)
    (pluginEval : String → Except String α) (inputCols : List α) :
    CompiledExpr → Except String α
  | .strategyNode tag => pluginEval tag
  | .functionNode expr schema fn children =>
    if expr.kind == .fieldRef then
      match schema.findIdx? (fun s => s == expr.name) with
      | some idx =>
        match inputCols.get? idx with
        | some c => .ok c
        | none => .error "input column out of range"
      | none => .error ("Field not found: " ++ expr.name)
    else
      match fn with
      | some f =>
        match evalCompiledChildren applyFn pluginEval inputCols children with
        | .ok vs => .ok (applyFn f vs)
        | .error msg => .error msg
      | none =>
        .error ("Unsupported expression for recursive evaluation: " ++ expr.name)

def evalCompiledChildren {α : Type} (applyFn : CudfFunctionModel → List α → α)
    (pluginEval : String → Except String α) (inputCols : List α) :
    List (Option CompiledExpr) → Except String (List α)
  | [] => .ok []
  | none :: _ => .error "null subexpression"
  | some c :: rest =>
    match evalCompiled applyFn pluginEval inputCols c with
    | .ok v =>
      match evalCompiledChildren applyFn pluginEval inputCols rest with
      | .ok vs => .ok (v :: vs)
      | .error msg => .error msg
    | .error msg => .error msg

end

def pexprUnregistered : PExpr := .mk .call "foo" none []

/-- Counterexample for C5: compiling a call node whose name has no Capability
Registry entry does NOT fail at compile time.  `FunctionExpression::create`
returns a non-null node (with a null function and no children), and the
failure only surfaces when that node is evaluated. -/
theorem claim_C5_counterexample :
    FunctionExpression.create [] [] pexprUnregistered [] =
      some (.functionNode pexprUnregistered [] none []) ∧
    evalCompiled (fun _ _ => (0 : Nat)) (fun t => .error t) []
        (.functionNode pexprUnregistered [] none []) =
      .error "Unsupported expression for recursive evaluation: foo" := by
  constructor
  · rfl
  · rw [evalCompiled]
    rfl

/-- Claim C5 (amended): compiling an expression call node whose name has no
entry in the Capability Registry does not fail at compile time —
`FunctionExpression::create` returns a node with no compiled function and no
compiled children, and the unsupported-expression failure is raised when
that node is evaluated. -/
theorem claim_C5_amended {α : Type} (applyFn : CudfFunctionModel → List α → α)
    (pluginEval : String → Except String α) (inputCols : List α)
    (reg : EvalRegistry) (funcReg : CudfFunctionRegistry) (expr : PExpr)
    (schema : List String)
    (hkind : expr.kind = .call)
    (hname : registryLookup funcReg expr.name = none) :
    FunctionExpression.create reg funcReg expr schema =
      some (.functionNode expr schema none []) ∧
    evalCompiled applyFn pluginEval inputCols (.functionNode expr schema none []) =
      .error ("Unsupported expression for recursive evaluation: " ++ expr.name) := by
  have hfn : createCudfFunction funcReg expr.name expr = none := by
    rw [createCudfFunction, hname]
  constructor
  · rw [FunctionExpression.create, hfn]
  · rw [evalCompiled]
    have : (expr.kind == PExprKind.fieldRef) = false := by
      rw [hkind]
      rfl
    rw [this]
    rfl

/-- Witness for the amended C5 at a concrete unregistered call. -/
theorem claim_C5_witness :
    FunctionExpression.create [] [] pexprUnregistered [] =
      some (.functionNode pexprUnregistered [] none []) ∧
    evalCompiled (fun _ _ => (0 : Nat)) (fun t => .error t) [7]
        (.functionNode pexprUnregistered [] none []) =
      .error ("Unsupported expression for recursive evaluation: " ++
        pexprUnregistered.name) :=
  claim_C5_amended (fun _ _ => (0 : Nat)) (fun t => .error t) [7] [] []
    pexprUnregistered [] rfl rfl

/-! ## Registration semantics (claim C6) -/

theorem registryLookup_cons {α : Type} (p : String × α) (rest : List (String × α))
    (name : String) :
    registryLookup (p :: rest) name =
      if p.1 == name then some p.2 else registryLookup rest name := by
  by_cases hp : (p.1 == name) = true
  · rw [if_pos hp, registryLookup,
      @List.find?_cons_of_pos _ (fun q => q.1 == name) p rest hp]
    rfl
  · rw [if_neg hp, registryLookup, registryLookup,
      @List.find?_cons_of_neg _ (fun q => q.1 == name) p rest hp]

theorem registryContains_cons {α : Type} (p : String × α) (rest : List (String × α))
    (name : String) :
    registryContains (p :: rest) name = ((p.1 == name) || registryContains rest name) := by
  rw [registryContains, registryContains, List.any_cons]

theorem registryContains_of_lookup {α : Type} (reg : List (String × α))
    (name : String) (v : α) (h : registryLookup reg name = some v) :
    registryContains reg name = true := by
  induction reg with
  | nil => cases h
  | cons p rest ih =>
    rw [registryLookup_cons] at h
    rw [registryContains_cons]
    by_cases hp : (p.1 == name) = true
    · rw [hp]
      rfl
    · rw [if_neg hp] at h
      rw [ih h, Bool.or_true]

theorem registryLookup_store {α : Type} (reg : List (String × α))
    (name : String) (v : α) :
    registryLookup (registryStore reg name v) name = some v := by
  rw [registryStore]
  by_cases hc : registryContains reg name = true
  · rw [if_pos hc]
    induction reg with
    | nil => cases hc
    | cons p rest ih =>
      rw [List.map_cons]
      by_cases hp : (p.1 == name) = true
      · rw [if_pos hp, registryLookup_cons]
        simp [hp]
      · rw [if_neg hp, registryLookup_cons, if_neg hp]
        have hc2 : registryContains rest name = true := by
          rw [registryContains_cons] at hc
          rcases Bool.or_eq_true_iff.mp hc with h2 | h2
          · exact absurd h2 hp
          · exact h2
        exact ih hc2
  · rw [if_neg hc]
    induction reg with
    | nil =>
      rw [List.nil_append, registryLookup_cons]
      simp
    | cons p rest ih =>
      rw [List.cons_append, registryLookup_cons]
      rw [registryContains_cons] at hc
      by_cases hp : (p.1 == name) = true
      · rw [hp] at hc
        simp at hc
      · rw [if_neg hp]
        refine ih ?_
        intro h2
        exact hc (by rw [h2, Bool.or_true])

/-- Claim C6: re-registering an existing name with `overwrite=false` returns
false and leaves the registry unchanged (so the first entry stays active);
with `overwrite=true` it returns true and the stored entry is replaced — in
both the function registry (`registerCudfFunction`) and the
evaluator-strategy registry (`registerCudfExpressionEvaluator`). -/
theorem claim_C6_idempotent_registration
    (freg : CudfFunctionRegistry) (ereg : EvalRegistry) (nameF nameE : String)
    (f f2 : CudfFunctionFactory) (e e2 : CudfExpressionEvaluatorEntry)
    (hf : registryLookup freg nameF = some f)
    (he : registryLookup ereg nameE = some e) :
    registerCudfFunction freg nameF f2 false = (false, freg) ∧
    (registerCudfFunction freg nameF f2 true).1 = true ∧
    registryLookup (registerCudfFunction freg nameF f2 true).2 nameF = some f2 ∧
    registerCudfExpressionEvaluator ereg nameE e2 false = (false, ereg) ∧
    (registerCudfExpressionEvaluator ereg nameE e2 true).1 = true ∧
    registryLookup (registerCudfExpressionEvaluator ereg nameE e2 true).2 nameE =
      some e2 := by
  have hcf := registryContains_of_lookup freg nameF f hf
  have hce := registryContains_of_lookup ereg nameE e he
  refine ⟨?_, ?_, ?_, ?_, ?_, ?_⟩
  · rw [registerCudfFunction]
    simp [hcf]
  · rfl
  · rw [registerCudfFunction]
    simp only [Bool.not_true, Bool.false_and, Bool.false_eq_true, if_false]
    exact registryLookup_store freg nameF f2
  · rw [registerCudfExpressionEvaluator]
    simp [hce]
  · rfl
  · rw [registerCudfExpressionEvaluator]
    simp only [Bool.not_true, Bool.false_and, Bool.false_eq_true, if_false]
    exact registryLookup_store ereg nameE e2

/-- Witness for C6 on concrete one-entry registries. -/
theorem claim_C6_witness :
    registerCudfFunction [("g", fun _ _ => "gfun")] "g" (fun _ _ => "gfun2") false =
      (false, [("g", fun _ _ => "gfun")]) ∧
    (registerCudfFunction [("g", fun _ _ => "gfun")] "g" (fun _ _ => "gfun2") true).1 =
      true ∧
    registryLookup
        (registerCudfFunction [("g", fun _ _ => "gfun")] "g"
          (fun _ _ => "gfun2") true).2 "g" = some (fun _ _ => "gfun2") ∧
    registerCudfExpressionEvaluator [("s", entryLowPriority)] "s"
        entryHighPriority false = (false, [("s", entryLowPriority)]) ∧
    (registerCudfExpressionEvaluator [("s", entryLowPriority)] "s"
        entryHighPriority true).1 = true ∧
    registryLookup
        (registerCudfExpressionEvaluator [("s", entryLowPriority)] "s"
          entryHighPriority true).2 "s" = some entryHighPriority :=
  claim_C6_idempotent_registration [("g", fun _ _ => "gfun")]
    [("s", entryLowPriority)] "g" "s" (fun _ _ => "gfun") (fun _ _ => "gfun2")
    entryLowPriority entryHighPriority rfl rfl

/-! ## Substring index translation (claim C9)

`SubstrFunction::SubstrFunction` extracts the constant 1-based start (and
optional length) and precomputes the cuDF `slice_strings` scalars. -/

/-- `static_cast<cudf::size_type>` (32-bit wrap-around). -/
def toInt32 (x : Int) : Int := (x + 2 ^ 31) % 2 ^ 32 - 2 ^ 31

/-- The three precomputed scalars of a `SubstrFunction`; `endScalar = none`
models the invalid (open-ended) end scalar built when no length argument is
given. -/
structure SubstrScalars where
  startScalar : Int
  endScalar : Option Int
  stepScalar : Int
  deriving DecidableEq

/-- `SubstrFunction::SubstrFunction`: validate 2-3 inputs, require constant
start (and length when present), translate Presto 1-based indexing to cuDF
0-based `[begin, end)` slicing. -/
def SubstrFunction.make (expr : PExpr) : Except String SubstrScalars :=
  if expr.inputs.length < 2 then
    .error "substr expects at least 2 inputs"
  else if expr.inputs.length > 3 then
    .error "substr expects at most 3 inputs"
  else
    match expr.inputs.get? 1 with
    | none => .error "substr expects at least 2 inputs"
    | some startExpr =>
      if startExpr.kind != .constant then
        .error "substr start must be a constant"
      else
        match startExpr.constVal with
        | none => .error "substr start must be a constant"
        | some startValue =>
          let adjustedStart :=
            if startValue ≥ 1 then toInt32 (startValue - 1) else toInt32 startValue
          if expr.inputs.length > 2 then
            match expr.inputs.get? 2 with
            | none => .error "substr expects at most 3 inputs"
            | some lengthExpr =>
              if lengthExpr.kind != .constant then
                .error "substr length must be a constant"
              else
                match lengthExpr.constVal with
                | none => .error "substr length must be a constant"
                | some lengthValue =>
                  .ok { startScalar := adjustedStart
                        endScalar := some (toInt32 (adjustedStart + toInt32 lengthValue))
                        stepScalar := 1 }
          else
            .ok { startScalar := adjustedStart, endScalar := none, stepScalar := 1 }

/-- Claim C9: a substring call with constant 1-based start=1 and length=3
compiles to a slice over the 0-based range [0, 3); start=5 with no length
compiles to an open-ended slice starting at 0-based index 4. -/
theorem claim_C9_substr_index_translation :
    SubstrFunction.make (.mk .call "substr" none
        [.mk .fieldRef "c0" none [],
         .mk .constant "literal" (some 1) [],
         .mk .constant "literal" (some 3) []]) =
      .ok { startScalar := 0, endScalar := some 3, stepScalar := 1 } ∧
    SubstrFunction.make (.mk .call "substr" none
        [.mk .fieldRef "c0" none [],
         .mk .constant "literal" (some 5) []]) =
      .ok { startScalar := 4, endScalar := none, stepScalar := 1 } := by
  constructor
  · rfl
  · rfl

/-! ## Checked modulus (claim C10)

`checkedModulus` from the checked-arithmetic header. -/

/-- Minimum value of a signed `bits`-bit integer type. -/
def intTypeMin (bits : Nat) : Int := -(2 ^ (bits - 1))

/-- C++ `%` on a signed `bits`-bit integer type: truncated remainder, except
that `min % -1` is unrepresentable and traps at runtime on common hardware
(the crash the comment in `checkedModulus` guards against); `none` models
the trap. -/
def machineMod (bits : Nat) (a b : Int) : Option Int :=
  if a = intTypeMin bits ∧ b = -1 then none else some (Int.tmod a b)

/-- `checkedModulus`: divide-by-zero raises an arithmetic error; `b == -1`
returns 0 before `%` is ever evaluated; otherwise the machine `%` runs. -/
def checkedModulus (bits : Nat) (a b : Int) : Except String Int :=
  if b = 0 then
    .error "Cannot divide by 0"
  else if b = -1 then
    .ok 0
  else
    match machineMod bits a b with
    | some r => .ok r
    | none => .error "machine trap"

/-- Claim C10: `checkedModulus` raises an arithmetic error exactly when
`b = 0`, returns 0 when `b = -1` without evaluating `%` (in particular the
unrepresentable case `min % -1`, where the machine `%` would trap, returns
0), and returns the truncated remainder `a % b` for every other `b`. -/
theorem claim_C10_checkedModulus (bits : Nat) (a b : Int) :
    ((∃ msg, checkedModulus bits a b = .error msg) ↔ b = 0) ∧
    (b = 0 → checkedModulus bits a b = .error "Cannot divide by 0") ∧
    (b = -1 → checkedModulus bits a b = .ok 0) ∧
    (b ≠ 0 → b ≠ -1 → checkedModulus bits a b = .ok (Int.tmod a b)) ∧
    (checkedModulus bits (intTypeMin bits) (-1) = .ok 0 ∧
      machineMod bits (intTypeMin bits) (-1) = none) := by
  refine ⟨⟨?_, ?_⟩, ?_, ?_, ?_, ?_, ?_⟩
  · rintro ⟨msg, hmsg⟩
    by_contra hb0
    rw [checkedModulus, if_neg hb0] at hmsg
    by_cases hb1 : b = -1
    · rw [if_pos hb1] at hmsg
      cases hmsg
    · rw [if_neg hb1] at hmsg
      have : machineMod bits a b = some (Int.tmod a b) := by
        rw [machineMod, if_neg]
        rintro ⟨_, h2⟩
        exact hb1 h2
      rw [this] at hmsg
      cases hmsg
  · intro hb0
    exact ⟨"Cannot divide by 0", by rw [checkedModulus, if_pos hb0]⟩
  · intro hb0
    rw [checkedModulus, if_pos hb0]
  · intro hb1
    rw [checkedModulus]
    by_cases hb0 : b = 0
    · rw [hb0] at hb1
      cases hb1
    · rw [if_neg hb0, if_pos hb1]
  · intro hb0 hb1
    rw [checkedModulus, if_neg hb0, if_neg hb1]
    have : machineMod bits a b = some (Int.tmod a b) := by
      rw [machineMod, if_neg]
      rintro ⟨_, h2⟩
      exact hb1 h2
    rw [this]
  · rw [checkedModulus]
    norm_num
  · rw [machineMod]
    simp

/-- Witness for C10 at the 64-bit type: ordinary remainder, divide-by-zero,
and the guarded `min % -1` case. -/
theorem claim_C10_witness :
    checkedModulus 64 22 7 = .ok (Int.tmod 22 7) ∧
    checkedModulus 64 22 0 = .error "Cannot divide by 0" ∧
    checkedModulus 64 (intTypeMin 64) (-1) = .ok 0 :=
  ⟨(claim_C10_checkedModulus 64 22 7).2.2.2.1 (by decide) (by decide),
   (claim_C10_checkedModulus 64 22 0).2.1 rfl,
   (claim_C10_checkedModulus 64 (intTypeMin 64) (-1)).2.2.2.2.1⟩

/-! ## Pipeline compiler (`CompileState::compile`)

The driver's operator sequence is modelled by the operator kinds the code
dynamic-casts against.  Externally decided facts (whether a table scan's
connector is the cuDF hive connector, whether a join type is supported) are
carried as fields of the operator description. -/

structure JoinDesc where
  supportedType : Bool
  isAnti : Bool
  isNullAware : Bool
  hasFilter : Bool
  deriving DecidableEq

inductive PartitionKind where
  | roundRobin
  | hashPartition
  deriving DecidableEq

/-- Modelled from the spec: `CudfLocalPartition::shouldReplace` is declared
in a header that is not among the sources; per the spec, round-robin
(content-independent) local partitioning is kept on the host path while a
content-dependent (hash) partitioning function is replaced. -/
def CudfLocalPartition.shouldReplace (p : PartitionKind) : Bool :=
  match p with
  | .roundRobin => false
  | .hashPartition => true

inductive OpKind where
  | tableScan (cudfConnector : Bool)
  | filterProject (projections : Option (List TypedExpr)) (filter : Option TypedExpr)
  | hashBuild (j : JoinDesc)
  | hashProbe (j : JoinDesc)
  | orderBy
  | hashAggregation
  | streamingAggregation
  | limit
  | topN
  | localPartition (p : PartitionKind)
  | localExchange
  | assignUniqueId
  | values
  | callbackSink
  | unknown

/-- Operators of the rewritten pipeline: retained originals, the boundary
adapters `CudfFromVelox` / `CudfToVelox`, and the cuDF counterparts. -/
inductive ROp where
  | original (o : OpKind)
  | fromVelox
  | toVelox
  | cudfHashJoinBuild
  | cudfHashJoinProbe
  | cudfOrderBy
  | cudfHashAggregation
  | cudfFilterProject
  | cudfLimit
  | cudfLocalPartition
  | cudfAssignUniqueId

/-- `isTableScanSupported`: a table scan whose connector is the cuDF hive
connector. -/
def isTableScanSupported : OpKind → Bool
  | .tableScan c => c
  | _ => false

/-- `isFilterProjectSupported`: every projection and the filter (when
present) must pass the logical feasibility check. -/
def isFilterProjectSupported (reg : EvalRegistry) : OpKind → Bool
  | .filterProject projections filter =>
    (match projections with
     | some ps => canBeEvaluatedByCudfList reg ps
     | none => true) &&
    (match filter with
     | some f => canBeEvaluatedByCudfList reg [f]
     | none => true)
  | _ => false

/-- `isJoinSupported`: hash build/probe with a supported join type,
excluding null-aware anti join combined with a filter. -/
def isJoinSupported : OpKind → Bool
  | .hashBuild j => j.supportedType && !(j.isAnti && j.isNullAware && j.hasFilter)
  | .hashProbe j => j.supportedType && !(j.isAnti && j.isNullAware && j.hasFilter)
  | _ => false

def isSupportedGpuOperator (reg : EvalRegistry) (o : OpKind) : Bool :=
  (match o with
   | .orderBy | .hashAggregation | .limit | .localPartition _ | .localExchange
   | .assignUniqueId => true
   | _ => false) ||
  isFilterProjectSupported reg o || isJoinSupported o || isTableScanSupported o

def acceptsGpuInput (reg : EvalRegistry) (o : OpKind) : Bool :=
  (match o with
   | .orderBy | .hashAggregation | .limit | .localPartition _
   | .assignUniqueId => true
   | _ => false) ||
  isFilterProjectSupported reg o || isJoinSupported o

def producesGpuOutput (reg : EvalRegistry) (o : OpKind) : Bool :=
  (match o with
   | .orderBy | .hashAggregation | .limit | .localExchange
   | .assignUniqueId => true
   | _ => false) ||
  isFilterProjectSupported reg o ||
  ((match o with | .hashProbe _ => true | _ => false) && isJoinSupported o) ||
  isTableScanSupported o

/-- The replacement decision chain (the if/else-if cascade over dynamic
casts in the loop body): returns the cuDF counterpart operators pushed into
`replaceOp` and the `keepOperator` flag. -/
def decideOp (reg : EvalRegistry) (o : OpKind) : List ROp × Nat :=
  if isTableScanSupported o then
    ([], 1)
  else if isJoinSupported o then
    match o with
    | .hashBuild _ => ([.cudfHashJoinBuild], 0)
    | .hashProbe _ => ([.cudfHashJoinProbe], 0)
    | _ => ([], 0)
  else
    match o with
    | .orderBy => ([.cudfOrderBy], 0)
    | .hashAggregation => ([.cudfHashAggregation], 0)
    | _ =>
      if isFilterProjectSupported reg o then
        ([.cudfFilterProject], 0)
      else
        match o with
        | .limit => ([.cudfLimit], 0)
        | .localPartition p =>
          if CudfLocalPartition.shouldReplace p then
            ([.cudfLocalPartition], 0)
          else
            ([], 1)
        | .localExchange => ([], 1)
        | .assignUniqueId => ([.cudfAssignUniqueId], 0)
        | _ => ([], 1)

/-- `GpuReplacedOperator`: kinds expected to be replaced by a cuDF
counterpart. -/
def gpuReplacedOperator : OpKind → Bool
  | .orderBy | .topN | .hashAggregation | .hashProbe _ | .hashBuild _
  | .streamingAggregation | .limit | .localPartition _ | .localExchange
  | .filterProject _ _ | .assignUniqueId => true
  | _ => false

/-- `GpuRetainedOperator`: kinds acceptably retained on the host path. -/
def gpuRetainedOperator : OpKind → Bool
  | .values | .localExchange | .callbackSink => true
  | .tableScan c => isTableScanSupported (.tableScan c)
  | _ => false

def prevOperatorIsNotGpu (supported : List Bool) (i : Nat) : Bool :=
  decide (0 < i) && !(supported.getD (i - 1) false)

def nextOperatorIsNotGpu (supported : List Bool) (n i : Nat) : Bool :=
  decide (i < n - 1) && !(supported.getD (i + 1) false)

def isLastOperatorOfTask (outputDriver : Bool) (n i : Nat) : Bool :=
  outputDriver && decide (i = n - 1)

/-- The `CudfFromVelox` adapter inserted before the current operator. -/
def fromPart (reg : EvalRegistry) (supported : List Bool) (i : Nat) (o : OpKind) :
    List ROp :=
  if prevOperatorIsNotGpu supported i && acceptsGpuInput reg o then
    [.fromVelox]
  else []

/-- The `CudfToVelox` adapter appended after the current operator. -/
def toPart (reg : EvalRegistry) (supported : List Bool) (n : Nat)
    (outputDriver : Bool) (i : Nat) (o : OpKind) : List ROp :=
  if producesGpuOutput reg o &&
      (nextOperatorIsNotGpu supported n i || isLastOperatorOfTask outputDriver n i) then
    [.toVelox]
  else []

/-- `replaceOp` at the time of the fallback-policy check: the counterpart
operators plus the optional to-velox adapter. -/
def replacePart (reg : EvalRegistry) (supported : List Bool) (n : Nat)
    (outputDriver : Bool) (i : Nat) (o : OpKind) : List ROp :=
  (decideOp reg o).1 ++ toPart reg supported n outputDriver i o

/-- The fallback-policy condition checked by `VELOX_CHECK`. -/
def stepCond (reg : EvalRegistry) (supported : List Bool) (n : Nat)
    (outputDriver : Bool) (i : Nat) (o : OpKind) : Bool :=
  (gpuReplacedOperator o &&
    !(replacePart reg supported n outputDriver i o).isEmpty &&
    decide ((decideOp reg o).2 = 0)) ||
  (gpuRetainedOperator o &&
    (replacePart reg supported n outputDriver i o).isEmpty &&
    decide ((decideOp reg o).2 = 1))

/-- `DriverFactory::replaceOperators(driver, startIdx, endIdxExclusive, ops)`:
replace the index range `[startIdx, endIdx)` of the live operator list. -/
def replaceOperators (ops : List ROp) (startIdx endIdx : Nat)
    (newOps : List ROp) : List ROp :=
  ops.take startIdx ++ newOps ++ ops.drop endIdx

/-- The compilation loop of `CompileState::compile`: iterate over the
snapshot of the original operators (`rest`, with `i` the original index),
mutating the live operator list through `replaceOperators` while tracking
`operatorsOffset` and `replacementsMade`. -/
def compileLoop (reg : EvalRegistry) (supported : List Bool) (n : Nat)
    (outputDriver allowCpuFallback : Bool) :
    List OpKind → Nat → List ROp → Nat → Bool → Except String (List ROp × Bool)
  | [], _, live, _, made => .ok (live, made)
  | oper :: rest, i, live, offset, made =>
    let fp := fromPart reg supported i oper
    let live1 := if fp.isEmpty then live
      else replaceOperators live (i + offset) (i + offset) fp
    let offset1 := offset + fp.length
    let made1 := made || !fp.isEmpty
    let keep := (decideOp reg oper).2
    let rp := replacePart reg supported n outputDriver i oper
    if !allowCpuFallback && !stepCond reg supported n outputDriver i oper then
      .error "Replacement with cuDF operator failed"
    else
      let live2 := if rp.isEmpty then live1
        else replaceOperators live1 (i + offset1 + keep) (i + offset1 + 1) rp
      let offset2 := if rp.isEmpty then offset1 else offset1 + rp.length - 1 + keep
      let made2 := made1 || !rp.isEmpty
      compileLoop reg supported n outputDriver allowCpuFallback rest (i + 1)
        live2 offset2 made2

/-- `CompileState::compile`: classify all operators up front, then run the
loop over the operator snapshot starting from the unmodified pipeline. -/
def CompileState.compile (reg : EvalRegistry) (ops : List OpKind)
    (outputDriver allowCpuFallback : Bool) : Except String (List ROp × Bool) :=
  let supported := ops.map (isSupportedGpuOperator reg)
  compileLoop reg supported ops.length outputDriver allowCpuFallback ops 0
    (ops.map .original) 0 false

/-! ### Normal form of the compiled pipeline

The loop only ever edits the live operator list at the boundary between the
already-processed region and the unprocessed originals, so its result is
the concatenation of one chunk per original operator.  `stepChunk` is that
chunk; the master lemma `compileLoop_spec` proves the correspondence. -/

/-- The operators that replace (or surround) original operator `o` at
original index `i` in the rewritten pipeline. -/
def stepChunk (reg : EvalRegistry) (supported : List Bool) (n : Nat)
    (outputDriver : Bool) (i : Nat) (o : OpKind) : List ROp :=
  let fp := fromPart reg supported i o
  let rp := replacePart reg supported n outputDriver i o
  if rp.isEmpty then fp ++ [.original o]
  else if (decideOp reg o).2 = 1 then fp ++ .original o :: rp
  else fp ++ rp

def stepMade (reg : EvalRegistry) (supported : List Bool) (n : Nat)
    (outputDriver : Bool) (i : Nat) (o : OpKind) : Bool :=
  !(fromPart reg supported i o).isEmpty ||
  !(replacePart reg supported n outputDriver i o).isEmpty

def chunksFrom (reg : EvalRegistry) (supported : List Bool) (n : Nat)
    (outputDriver : Bool) : List OpKind → Nat → List ROp
  | [], _ => []
  | o :: rest, i =>
    stepChunk reg supported n outputDriver i o ++
      chunksFrom reg supported n outputDriver rest (i + 1)

def condsFrom (reg : EvalRegistry) (supported : List Bool) (n : Nat)
    (outputDriver : Bool) : List OpKind → Nat → Bool
  | [], _ => true
  | o :: rest, i =>
    stepCond reg supported n outputDriver i o &&
      condsFrom reg supported n outputDriver rest (i + 1)

def madeFrom (reg : EvalRegistry) (supported : List Bool) (n : Nat)
    (outputDriver : Bool) : List OpKind → Nat → Bool
  | [], _ => false
  | o :: rest, i =>
    stepMade reg supported n outputDriver i o ||
      madeFrom reg supported n outputDriver rest (i + 1)

/-- The live list after one loop iteration. -/
def stepLive (reg : EvalRegistry) (supported : List Bool) (n : Nat)
    (outputDriver : Bool) (i : Nat) (oper : OpKind) (live : List ROp)
    (offset : Nat) : List ROp :=
  let fp := fromPart reg supported i oper
  let live1 := if fp.isEmpty then live
    else replaceOperators live (i + offset) (i + offset) fp
  let offset1 := offset + fp.length
  let keep := (decideOp reg oper).2
  let rp := replacePart reg supported n outputDriver i oper
  if rp.isEmpty then live1
  else replaceOperators live1 (i + offset1 + keep) (i + offset1 + 1) rp

/-- The offset after one loop iteration. -/
def stepOffset (reg : EvalRegistry) (supported : List Bool) (n : Nat)
    (outputDriver : Bool) (i : Nat) (oper : OpKind) (offset : Nat) : Nat :=
  let fp := fromPart reg supported i oper
  let offset1 := offset + fp.length
  let keep := (decideOp reg oper).2
  let rp := replacePart reg supported n outputDriver i oper
  if rp.isEmpty then offset1 else offset1 + rp.length - 1 + keep

/-- The replacements-made flag after one loop iteration. -/
def stepMadeAcc (reg : EvalRegistry) (supported : List Bool) (n : Nat)
    (outputDriver : Bool) (i : Nat) (oper : OpKind) (made : Bool) : Bool :=
  (made || !(fromPart reg supported i oper).isEmpty) ||
  !(replacePart reg supported n outputDriver i oper).isEmpty

theorem compileLoop_cons (reg : EvalRegistry) (supported : List Bool) (n : Nat)
    (od af : Bool) (oper : OpKind) (rest : List OpKind) (i : Nat)
    (live : List ROp) (offset : Nat) (made : Bool) :
    compileLoop reg supported n od af (oper :: rest) i live offset made =
      if !af && !stepCond reg supported n od i oper then
        .error "Replacement with cuDF operator failed"
      else
        compileLoop reg supported n od af rest (i + 1)
          (stepLive reg supported n od i oper live offset)
          (stepOffset reg supported n od i oper offset)
          (stepMadeAcc reg supported n od i oper made) := rfl

theorem decideOp_keep (reg : EvalRegistry) (o : OpKind) :
    (decideOp reg o).2 = 0 ∨ (decideOp reg o).2 = 1 := by
  cases o <;>
    simp only [decideOp, isTableScanSupported, isJoinSupported,
      isFilterProjectSupported, CudfLocalPartition.shouldReplace] <;>
    split_ifs <;>
    simp

theorem replaceOperators_insert_at (A l newOps : List ROp) :
    replaceOperators (A ++ l) A.length A.length newOps = A ++ newOps ++ l := by
  rw [replaceOperators, List.take_left, List.drop_left]

theorem replaceOperators_keep (A1 : List ROp) (x : ROp) (l rp : List ROp)
    (keep : Nat) (hkeep : keep = 0 ∨ keep = 1) :
    replaceOperators (A1 ++ x :: l) (A1.length + keep) (A1.length + 1) rp =
      (A1 ++ (if keep = 1 then x :: rp else rp)) ++ l := by
  have hsplit : A1 ++ x :: l = (A1 ++ [x]) ++ l := by simp
  have hdrop : (A1 ++ x :: l).drop (A1.length + 1) = l := by
    rw [hsplit]
    exact List.drop_left' (by simp)
  rcases hkeep with h | h <;> subst h
  · rw [replaceOperators, Nat.add_zero, List.take_left' rfl, hdrop]
    simp
  · rw [replaceOperators, hdrop]
    have htake : (A1 ++ x :: l).take (A1.length + 1) = A1 ++ [x] := by
      rw [hsplit]
      exact List.take_left' (by simp)
    rw [htake]
    simp

theorem stepLive_spec (reg : EvalRegistry) (supported : List Bool) (n : Nat)
    (od : Bool) (i : Nat) (oper : OpKind) (A restMap : List ROp) (off : Nat)
    (hoff : i + off = A.length) :
    stepLive reg supported n od i oper (A ++ ROp.original oper :: restMap) off =
      (A ++ stepChunk reg supported n od i oper) ++ restMap ∧
    (i + 1) + stepOffset reg supported n od i oper off =
      (A ++ stepChunk reg supported n od i oper).length := by
  have hkeep := decideOp_keep reg oper
  rw [stepLive, stepOffset, stepChunk]
  have hlive1 :
      (if (fromPart reg supported i oper).isEmpty then
          A ++ ROp.original oper :: restMap
        else
          replaceOperators (A ++ ROp.original oper :: restMap) (i + off) (i + off)
            (fromPart reg supported i oper)) =
        (A ++ fromPart reg supported i oper) ++ ROp.original oper :: restMap := by
    cases hfp : (fromPart reg supported i oper).isEmpty with
    | true =>
      rw [if_pos rfl]
      rw [List.isEmpty_iff.mp hfp]
      simp
    | false =>
      rw [if_neg Bool.false_ne_true]
      rw [hoff, replaceOperators_insert_at]
  have hlen1 : i + (off + (fromPart reg supported i oper).length) =
      (A ++ fromPart reg supported i oper).length := by
    rw [List.length_append]
    omega
  rw [hlive1]
  cases hrp : (replacePart reg supported n od i oper).isEmpty with
  | true =>
    rw [if_pos rfl]
    constructor
    · simp
    · simp
      omega
  | false =>
    rw [if_neg Bool.false_ne_true]
    have hrplen : 0 < (replacePart reg supported n od i oper).length := by
      cases hl : replacePart reg supported n od i oper with
      | nil =>
        rw [hl] at hrp
        cases hrp
      | cons a as => simp [hl]
    have hidx : i + (off + (fromPart reg supported i oper).length) +
        (decideOp reg oper).2 =
        (A ++ fromPart reg supported i oper).length + (decideOp reg oper).2 := by
      rw [List.length_append]
      omega
    have hidx1 : i + (off + (fromPart reg supported i oper).length) + 1 =
        (A ++ fromPart reg supported i oper).length + 1 := by
      rw [List.length_append]
      omega
    rw [hidx, hidx1, replaceOperators_keep _ _ _ _ _ hkeep]
    constructor
    · rcases hkeep with h | h <;> rw [h] <;> simp
    · rcases hkeep with h | h <;> rw [h] <;>
        simp [List.length_append] <;> omega

theorem compileLoop_spec (reg : EvalRegistry) (supported : List Bool) (n : Nat)
    (od af : Bool) (rest : List OpKind) :
    ∀ (i : Nat) (A : List ROp) (off : Nat) (made : Bool), i + off = A.length →
      compileLoop reg supported n od af rest i (A ++ rest.map ROp.original) off
          made =
        if !af && !condsFrom reg supported n od rest i then
          .error "Replacement with cuDF operator failed"
        else
          .ok (A ++ chunksFrom reg supported n od rest i,
            made || madeFrom reg supported n od rest i) := by
  induction rest with
  | nil =>
    intro i A off made hoff
    rw [condsFrom, chunksFrom, madeFrom]
    simp [compileLoop]
  | cons oper rest ih =>
    intro i A off made hoff
    rw [List.map_cons, compileLoop_cons, condsFrom, chunksFrom, madeFrom]
    by_cases hc : (!af && !stepCond reg supported n od i oper) = true
    · rw [if_pos hc]
      have haf : af = false := by
        revert hc
        cases af <;> simp
      have hsc : stepCond reg supported n od i oper = false := by
        revert hc
        cases stepCond reg supported n od i oper <;> simp
      rw [haf, hsc]
      simp
    · rw [if_neg hc]
      obtain ⟨hlive, hoff2⟩ :=
        stepLive_spec reg supported n od i oper A (rest.map ROp.original) off hoff
      rw [hlive, ih (i + 1) (A ++ stepChunk reg supported n od i oper)
        (stepOffset reg supported n od i oper off)
        (stepMadeAcc reg supported n od i oper made) hoff2]
      cases af with
      | true =>
        simp [stepMadeAcc, stepMade, List.append_assoc, Bool.or_assoc]
      | false =>
        have hstep : stepCond reg supported n od i oper = true := by
          revert hc
          cases stepCond reg supported n od i oper <;> simp
        rw [hstep]
        simp [stepMadeAcc, stepMade, List.append_assoc, Bool.or_assoc]

/-- The master correspondence: `CompileState::compile` fails exactly when
fallback is disallowed and some operator's fallback-policy condition fails;
otherwise it returns the concatenation of the per-operator chunks. -/
theorem compile_spec (reg : EvalRegistry) (ops : List OpKind) (od af : Bool) :
    CompileState.compile reg ops od af =
      if !af && !condsFrom reg (ops.map (isSupportedGpuOperator reg)) ops.length
          od ops 0 then
        .error "Replacement with cuDF operator failed"
      else
        .ok (chunksFrom reg (ops.map (isSupportedGpuOperator reg)) ops.length od
            ops 0,
          madeFrom reg (ops.map (isSupportedGpuOperator reg)) ops.length od ops 0) := by
  rw [CompileState.compile]
  have h := compileLoop_spec reg (ops.map (isSupportedGpuOperator reg)) ops.length
    od af ops 0 [] 0 false rfl
  rw [List.nil_append] at h
  rw [h]
  simp

/-! ### Operators ineligible for offload (claim C2) -/

theorem decideOp_ineligible (reg : EvalRegistry) (o : OpKind)
    (h : isSupportedGpuOperator reg o = false) :
    decideOp reg o = ([], 1) := by
  cases o <;>
    simp_all [isSupportedGpuOperator, decideOp, isTableScanSupported,
      isJoinSupported, isFilterProjectSupported]

theorem producesGpuOutput_ineligible (reg : EvalRegistry) (o : OpKind)
    (h : isSupportedGpuOperator reg o = false) :
    producesGpuOutput reg o = false := by
  cases o <;>
    simp_all [isSupportedGpuOperator, producesGpuOutput, isTableScanSupported,
      isJoinSupported, isFilterProjectSupported]

theorem gpuRetainedOperator_ineligible (reg : EvalRegistry) (o : OpKind)
    (h : isSupportedGpuOperator reg o = false)
    (hval : o ≠ .values) (hcbs : o ≠ .callbackSink) :
    gpuRetainedOperator o = false := by
  cases o <;>
    simp_all [isSupportedGpuOperator, gpuRetainedOperator, isTableScanSupported,
      isJoinSupported, isFilterProjectSupported]

theorem replacePart_ineligible (reg : EvalRegistry) (supported : List Bool)
    (n : Nat) (od : Bool) (i : Nat) (o : OpKind)
    (h : isSupportedGpuOperator reg o = false) :
    replacePart reg supported n od i o = [] := by
  rw [replacePart, decideOp_ineligible reg o h, toPart,
    producesGpuOutput_ineligible reg o h]
  simp

theorem stepCond_ineligible (reg : EvalRegistry) (supported : List Bool)
    (n : Nat) (od : Bool) (i : Nat) (o : OpKind)
    (h : isSupportedGpuOperator reg o = false)
    (hval : o ≠ .values) (hcbs : o ≠ .callbackSink) :
    stepCond reg supported n od i o = false := by
  rw [stepCond, replacePart_ineligible reg supported n od i o h,
    decideOp_ineligible reg o h,
    gpuRetainedOperator_ineligible reg o h hval hcbs]
  simp

theorem stepChunk_ineligible (reg : EvalRegistry) (supported : List Bool)
    (n : Nat) (od : Bool) (i : Nat) (o : OpKind)
    (h : isSupportedGpuOperator reg o = false) :
    stepChunk reg supported n od i o =
      fromPart reg supported i o ++ [ROp.original o] := by
  rw [stepChunk, replacePart_ineligible reg supported n od i o h]
  rfl

theorem condsFrom_eq_false (reg : EvalRegistry) (supported : List Bool)
    (n : Nat) (od : Bool) (rest : List OpKind) (i : Nat) (o : OpKind)
    (hmem : o ∈ rest)
    (hco : ∀ j, stepCond reg supported n od j o = false) :
    condsFrom reg supported n od rest i = false := by
  induction rest generalizing i with
  | nil => cases hmem
  | cons p ps ih =>
    rw [condsFrom]
    rcases List.mem_cons.mp hmem with hh | hh
    · subst hh
      rw [hco i, Bool.false_and]
    · rw [ih (i + 1) hh, Bool.and_false]

theorem original_mem_chunksFrom (reg : EvalRegistry) (supported : List Bool)
    (n : Nat) (od : Bool) (rest : List OpKind) (i : Nat) (o : OpKind)
    (hmem : o ∈ rest)
    (hchunk : ∀ j, ROp.original o ∈ stepChunk reg supported n od j o) :
    ROp.original o ∈ chunksFrom reg supported n od rest i := by
  induction rest generalizing i with
  | nil => cases hmem
  | cons p ps ih =>
    rw [chunksFrom]
    rcases List.mem_cons.mp hmem with hh | hh
    · subst hh
      exact List.mem_append_left _ (hchunk i)
    · exact List.mem_append_right _ (ih (i + 1) hh)

/-- Counterexample for C2: a `Values` operator is ineligible for offload,
yet the pipeline `[Values]` compiles successfully even with
`allowCpuFallback = false` (it is on the acceptably-retained list), so a
pipeline with an offload-ineligible operator does not always fail fatally. -/
theorem claim_C2_counterexample :
    isSupportedGpuOperator [] .values = false ∧
    CompileState.compile [] [.values] false false =
      .ok ([.original .values], false) :=
  ⟨rfl, rfl⟩

/-- Claim C2 (amended): for every pipeline containing an operator that is
ineligible for offload and is not one of the acceptably-retained kinds
(`Values`, `CallbackSink`), compiling with `allowCpuFallback = true`
succeeds and keeps that operator unchanged on the host path, while the
identical pipeline with `allowCpuFallback = false` fails fatally. -/
theorem claim_C2_amended (reg : EvalRegistry) (ops : List OpKind) (od : Bool)
    (o : OpKind) (hmem : o ∈ ops)
    (hinel : isSupportedGpuOperator reg o = false)
    (hval : o ≠ .values) (hcbs : o ≠ .callbackSink) :
    CompileState.compile reg ops od false =
      .error "Replacement with cuDF operator failed" ∧
    ∃ out made, CompileState.compile reg ops od true = .ok (out, made) ∧
      ROp.original o ∈ out := by
  constructor
  · rw [compile_spec]
    rw [condsFrom_eq_false reg (ops.map (isSupportedGpuOperator reg)) ops.length
      od ops 0 o hmem
      (fun j => stepCond_ineligible reg (ops.map (isSupportedGpuOperator reg))
        ops.length od j o hinel hval hcbs)]
    simp
  · refine ⟨chunksFrom reg (ops.map (isSupportedGpuOperator reg)) ops.length od
        ops 0,
      madeFrom reg (ops.map (isSupportedGpuOperator reg)) ops.length od ops 0,
      ?_, ?_⟩
    · rw [compile_spec]
      simp
    · refine original_mem_chunksFrom reg (ops.map (isSupportedGpuOperator reg))
        ops.length od ops 0 o hmem (fun j => ?_)
      rw [stepChunk_ineligible reg (ops.map (isSupportedGpuOperator reg))
        ops.length od j o hinel]
      simp

/-- Witness for the amended C2: a `TopN` operator (ineligible, not on the
retained list) forces a fatal error without fallback and is kept with it. -/
theorem claim_C2_witness :
    CompileState.compile [] [.topN] false false =
      .error "Replacement with cuDF operator failed" ∧
    ∃ out made, CompileState.compile [] [.topN] false true = .ok (out, made) ∧
      ROp.original .topN ∈ out :=
  claim_C2_amended [] [.topN] false .topN (by simp) rfl
    (by intro h; cases h) (by intro h; cases h)

/-! ### Boundary-adapter insertion after an operator (claim C7) -/

theorem toVelox_notin_counterpart (reg : EvalRegistry) (o : OpKind) :
    ROp.toVelox ∉ (decideOp reg o).1 := by
  cases o <;>
    simp [decideOp, isTableScanSupported, isJoinSupported,
      isFilterProjectSupported, CudfLocalPartition.shouldReplace] <;>
    split_ifs <;> simp

theorem getLast?_append_concat {α : Type} (l1 l2 : List α) (a : α) :
    (l1 ++ (l2 ++ [a])).getLast? = some a := by
  rw [← List.append_assoc]
  exact List.getLast?_concat _

theorem getLast?_cons_concat {α : Type} (l1 l2 : List α) (x a : α) :
    (l1 ++ x :: (l2 ++ [a])).getLast? = some a := by
  rw [show x :: (l2 ++ [a]) = (x :: l2) ++ [a] by simp, ← List.append_assoc]
  exact List.getLast?_concat _

theorem getLast?_append_ne {α : Type} (l1 l2 : List α) (a : α)
    (hne : l2 ≠ []) (h : ∀ x ∈ l2, x ≠ a) :
    (l1 ++ l2).getLast? ≠ some a := by
  rw [List.getLast?_append]
  cases hg : l2.getLast? with
  | none =>
    rw [List.getLast?_eq_none_iff] at hg
    exact absurd hg hne
  | some y =>
    intro hy
    have : y = a := by
      cases hy
      rfl
    subst this
    exact h y (List.mem_of_getLast?_eq_some hg) rfl

/-- A chunk ends in the to-velox boundary adapter exactly when the operator
produces accelerator-resident output and the next operator is not
accelerator-eligible or this is the last operator of the output driver. -/
theorem stepChunk_getLast (reg : EvalRegistry) (supported : List Bool) (n : Nat)
    (od : Bool) (i : Nat) (o : OpKind) :
    ((stepChunk reg supported n od i o).getLast? = some ROp.toVelox) ↔
      (producesGpuOutput reg o = true ∧
        (nextOperatorIsNotGpu supported n i = true ∨
         isLastOperatorOfTask od n i = true)) := by
  rw [stepChunk, replacePart, toPart]
  cases hpc : (producesGpuOutput reg o &&
      (nextOperatorIsNotGpu supported n i || isLastOperatorOfTask od n i)) with
  | true =>
    have hand := Bool.and_eq_true_iff.mp hpc
    refine iff_of_true ?_ ⟨hand.1, Bool.or_eq_true_iff.mp hand.2⟩
    rw [if_pos rfl]
    have hie : ((decideOp reg o).1 ++ [ROp.toVelox]).isEmpty = false := by
      simp
    rw [if_neg (by rw [hie]; exact Bool.false_ne_true)]
    by_cases hk : (decideOp reg o).2 = 1
    · rw [if_pos hk]
      exact getLast?_cons_concat _ _ _ _
    · rw [if_neg hk]
      exact getLast?_append_concat _ _ _
  | false =>
    rw [if_neg Bool.false_ne_true, List.append_nil]
    refine iff_of_false ?_ ?_
    · cases hcp : (decideOp reg o).1 with
      | nil =>
        rw [if_pos (show ([] : List ROp).isEmpty = true from rfl)]
        refine getLast?_append_ne _ _ _ (by simp) ?_
        intro x hx hxa
        subst hxa
        rcases List.mem_singleton.mp hx with h1
        cases h1
      | cons c cs =>
        rw [if_neg (by exact Bool.false_ne_true)]
        have hni := toVelox_notin_counterpart reg o
        rw [hcp] at hni
        by_cases hk : (decideOp reg o).2 = 1
        · rw [if_pos hk]
          refine getLast?_append_ne _ _ _ (by simp) ?_
          intro x hx hxa
          subst hxa
          rcases List.mem_cons.mp hx with h1 | h2
          · cases h1
          · exact hni h2
        · rw [if_neg hk]
          refine getLast?_append_ne _ _ _ (by simp) ?_
          intro x hx hxa
          subst hxa
          exact hni hx
    · rintro ⟨h1, h2⟩
      have hcond : (producesGpuOutput reg o &&
          (nextOperatorIsNotGpu supported n i ||
            isLastOperatorOfTask od n i)) = true := by
        rw [h1]
        rcases h2 with h2 | h2 <;> rw [h2] <;> simp
      rw [hpc] at hcond
      cases hcond

/-- Counterexample for C7: with `outputDriver = false`, the terminal
operator of the pipeline produces accelerator-resident output but no
accelerator-to-host adapter is inserted after it — the code additionally
requires the driver to be the task's output driver. -/
theorem claim_C7_counterexample :
    producesGpuOutput [] .orderBy = true ∧
    CompileState.compile [] [.orderBy] false true =
      .ok ([.cudfOrderBy], true) :=
  ⟨rfl, rfl⟩

/-- Claim C7 (amended): in the compiled pipeline, the chunk produced for the
operator at original position `i` ends in an accelerator-to-host boundary
adapter exactly when that operator produces accelerator-resident output and
either the next operator in the original sequence is not
accelerator-eligible or the operator is the terminal operator of the
task's output driver. -/
theorem claim_C7_adapter_insertion (reg : EvalRegistry) (ops : List OpKind)
    (od af : Bool) (out : List ROp) (m : Bool)
    (h : CompileState.compile reg ops od af = .ok (out, m)) :
    out = chunksFrom reg (ops.map (isSupportedGpuOperator reg)) ops.length od
      ops 0 ∧
    ∀ i o, ops.get? i = some o →
      (((stepChunk reg (ops.map (isSupportedGpuOperator reg)) ops.length od i
            o).getLast? = some ROp.toVelox) ↔
        (producesGpuOutput reg o = true ∧
          (nextOperatorIsNotGpu (ops.map (isSupportedGpuOperator reg))
              ops.length i = true ∨
           isLastOperatorOfTask od ops.length i = true))) := by
  constructor
  · rw [compile_spec] at h
    by_cases hc : (!af && !condsFrom reg (ops.map (isSupportedGpuOperator reg))
        ops.length od ops 0) = true
    · rw [if_pos hc] at h
      cases h
    · rw [if_neg hc] at h
      cases h
      rfl
  · intro i o _
    exact stepChunk_getLast reg (ops.map (isSupportedGpuOperator reg))
      ops.length od i o

/-- Witness for the amended C7 at a single-operator output driver: the
chunk for the terminal `OrderBy` ends in the to-velox adapter. -/
theorem claim_C7_witness :
    ([ROp.cudfOrderBy, ROp.toVelox] =
      chunksFrom [] [true] 1 true [.orderBy] 0) ∧
    ∀ i o, [OpKind.orderBy].get? i = some o →
      (((stepChunk [] [true] 1 true i o).getLast? = some ROp.toVelox) ↔
        (producesGpuOutput [] o = true ∧
          (nextOperatorIsNotGpu [true] 1 i = true ∨
           isLastOperatorOfTask true 1 i = true))) :=
  claim_C7_adapter_insertion [] [.orderBy] true true [.cudfOrderBy, .toVelox]
    true rfl

/-! ### Round-robin local partition exception (claim C8) -/

theorem stepChunk_localPartition (reg : EvalRegistry) (supported : List Bool)
    (n : Nat) (od : Bool) (i : Nat) (p : PartitionKind) :
    stepChunk reg supported n od i (.localPartition p) =
      fromPart reg supported i (.localPartition p) ++
        (if CudfLocalPartition.shouldReplace p then [ROp.cudfLocalPartition]
         else [ROp.original (.localPartition p)]) := by
  cases p <;> rfl

theorem mem_fromPart (reg : EvalRegistry) (supported : List Bool) (i : Nat)
    (o : OpKind) (x : ROp) (hx : x ∈ fromPart reg supported i o) :
    x = ROp.fromVelox := by
  rw [fromPart] at hx
  split at hx
  · exact List.mem_singleton.mp hx
  · cases hx

/-- Claim C8: in a successfully compiled pipeline, a round-robin
local-partition operator is never replaced by its accelerator counterpart
and is kept on the host path, whereas a hash-partitioned local-partition
operator is replaced by the accelerator counterpart. -/
theorem claim_C8_round_robin_partition (reg : EvalRegistry) (ops : List OpKind)
    (od af : Bool) (out : List ROp) (m : Bool)
    (h : CompileState.compile reg ops od af = .ok (out, m)) :
    out = chunksFrom reg (ops.map (isSupportedGpuOperator reg)) ops.length od
      ops 0 ∧
    ∀ i p, ops.get? i = some (.localPartition p) →
      (p = .roundRobin →
        stepChunk reg (ops.map (isSupportedGpuOperator reg)) ops.length od i
            (.localPartition p) =
          fromPart reg (ops.map (isSupportedGpuOperator reg)) i
              (.localPartition p) ++ [ROp.original (.localPartition p)] ∧
        ROp.cudfLocalPartition ∉
          stepChunk reg (ops.map (isSupportedGpuOperator reg)) ops.length od i
            (.localPartition p)) ∧
      (p = .hashPartition →
        stepChunk reg (ops.map (isSupportedGpuOperator reg)) ops.length od i
            (.localPartition p) =
          fromPart reg (ops.map (isSupportedGpuOperator reg)) i
              (.localPartition p) ++ [ROp.cudfLocalPartition] ∧
        ROp.original (.localPartition p) ∉
          stepChunk reg (ops.map (isSupportedGpuOperator reg)) ops.length od i
            (.localPartition p)) := by
  constructor
  · rw [compile_spec] at h
    by_cases hc : (!af && !condsFrom reg (ops.map (isSupportedGpuOperator reg))
        ops.length od ops 0) = true
    · rw [if_pos hc] at h
      cases h
    · rw [if_neg hc] at h
      cases h
      rfl
  · intro i p _
    constructor
    · intro hp
      subst hp
      rw [stepChunk_localPartition]
      constructor
      · rfl
      · intro hmem
        rcases List.mem_append.mp hmem with h1 | h1
        · cases mem_fromPart _ _ _ _ _ h1
        · rw [show (if CudfLocalPartition.shouldReplace PartitionKind.roundRobin
              then [ROp.cudfLocalPartition]
              else [ROp.original (.localPartition .roundRobin)]) =
              [ROp.original (.localPartition .roundRobin)] from rfl] at h1
          cases List.mem_singleton.mp h1
    · intro hp
      subst hp
      rw [stepChunk_localPartition]
      constructor
      · rfl
      · intro hmem
        rcases List.mem_append.mp hmem with h1 | h1
        · cases mem_fromPart _ _ _ _ _ h1
        · rw [show (if CudfLocalPartition.shouldReplace PartitionKind.hashPartition
              then [ROp.cudfLocalPartition]
              else [ROp.original (.localPartition .hashPartition)]) =
              [ROp.cudfLocalPartition] from rfl] at h1
          cases List.mem_singleton.mp h1

/-- Witness for C8 on a two-operator pipeline: the round-robin local
partition is kept on the host path, the hash local partition is replaced by
the accelerator counterpart. -/
theorem claim_C8_witness :
    ([ROp.original (.localPartition .roundRobin), ROp.cudfLocalPartition] =
      chunksFrom [] [true, true] 2 false
        [.localPartition .roundRobin, .localPartition .hashPartition] 0) ∧
    (stepChunk [] [true, true] 2 false 0 (.localPartition .roundRobin) =
      fromPart [] [true, true] 0 (.localPartition .roundRobin) ++
        [ROp.original (.localPartition .roundRobin)] ∧
     ROp.cudfLocalPartition ∉
       stepChunk [] [true, true] 2 false 0 (.localPartition .roundRobin)) ∧
    (stepChunk [] [true, true] 2 false 1 (.localPartition .hashPartition) =
      fromPart [] [true, true] 1 (.localPartition .hashPartition) ++
        [ROp.cudfLocalPartition] ∧
     ROp.original (.localPartition .hashPartition) ∉
       stepChunk [] [true, true] 2 false 1 (.localPartition .hashPartition)) :=
  ⟨(claim_C8_round_robin_partition []
      [.localPartition .roundRobin, .localPartition .hashPartition] false true
      [.original (.localPartition .roundRobin), .cudfLocalPartition] true
      rfl).1,
   ((claim_C8_round_robin_partition []
      [.localPartition .roundRobin, .localPartition .hashPartition] false true
      [.original (.localPartition .roundRobin), .cudfLocalPartition] true
      rfl).2 0 .roundRobin rfl).1 rfl,
   ((claim_C8_round_robin_partition []
      [.localPartition .roundRobin, .localPartition .hashPartition] false true
      [.original (.localPartition .roundRobin), .cudfLocalPartition] true
      rfl).2 1 .hashPartition rfl).2 rfl⟩

end VeloxCudf
